import Mathlib

/-!
Verification of the result-aggregation core of the medagents-benchmark
repository: the Filename Decoder (`parse_filename`, `parse_method` in
`output/make_table.py`) and the Record Extractor (`deduplicate_data`,
`calculate_cost_from_token_usage`, `calculate_time_from_data`,
`get_score_from_file` in `output/utils.py`).

Modelling conventions:
* Python strings are `String` / `List Char`; Python's substring test
  (`in`), `str.replace(old, new, 1)`, `str.replace(old, new)`,
  `lstrip('-')` and `strip('-')` are embedded as executable functions on
  `List Char`.
* `sorted(xs, key=len, reverse=True)` is embedded as a stable
  insertion sort by decreasing length (`sortByLenDesc`).
* A result record (one JSON object) is the structure `Record`; optional
  JSON keys become `Option` fields.  Python float arithmetic is embedded
  in `ℚ` (all constants in the source are decimal literals).
* A Python function that can raise (KeyError / ZeroDivisionError)
  returns an `Option`; `none` is the raising branch.
-/

/-- One token-usage object: `{"prompt_tokens": ..., "completion_tokens": ...}`. -/
structure TokenUsage where
  prompt_tokens : ℕ
  completion_tokens : ℕ
  deriving DecidableEq, Repr

/-- One result record of an output JSON file.  `realidx`,
`predicted_answer` and `time_elapsed` are required keys; `answer_idx`,
`answer`, `cost` and `token_usage` may be absent (`none`). -/
structure Record where
  realidx : ℕ
  answer_idx : Option String
  answer : Option String
  predicted_answer : String
  time_elapsed : ℚ
  cost : Option ℚ
  token_usage : Option TokenUsage
  deriving DecidableEq, Repr

/-! ### Python string primitives -/

/-- Python `needle in hay` (substring containment). -/
def isSubstr (needle : List Char) : List Char → Bool
  | [] => needle.isEmpty
  | c :: rest => needle.isPrefixOf (c :: rest) || isSubstr needle rest

/-- Python `hay.replace(needle, '', 1)`: remove the first (leftmost)
occurrence of `needle`, if any. -/
def removeFirst (needle : List Char) : List Char → List Char
  | [] => []
  | c :: rest =>
    if needle.isPrefixOf (c :: rest) then (c :: rest).drop needle.length
    else c :: removeFirst needle rest

/-- Python `filename.replace('.json', '')`: scan left to right and
remove every (leftmost, non-overlapping) occurrence of `.json`. -/
def stripJson : List Char → List Char
  | '.' :: 'j' :: 's' :: 'o' :: 'n' :: rest => stripJson rest
  | c :: rest => c :: stripJson rest
  | [] => []

/-- Guard for reasoning about `stripJson` on a left chunk of an
append: a list is `dotSafe` when no occurrence of `.json` can start
inside it — every `'.'` is followed, still inside the list, by a
character other than `'j'`. -/
def dotSafe : List Char → Bool
  | [] => true
  | c :: rest =>
    (!(c == '.') || (match rest with
      | [] => false
      | c2 :: _ => !(c2 == 'j'))) && dotSafe rest

/-- Python `s.lstrip('-')`. -/
def lstripDash (l : List Char) : List Char := l.dropWhile (· == '-')

/-- A list that starts with a character other than `'-'` (so stripping
leading dashes leaves it unchanged). -/
def startsNonDash : List Char → Bool
  | [] => false
  | c :: _ => !(c == '-')

/-- Python `s.strip('-')`. -/
def stripDash (l : List Char) : List Char :=
  ((lstripDash l).reverse.dropWhile (· == '-')).reverse

/-! ### Filename Decoder (`output/make_table.py`) -/

/-- Stable insertion of a string into a list already sorted by
decreasing length: `s` goes after every element at least as long. -/
def insertByLenDesc (s : String) : List String → List String
  | [] => [s]
  | x :: xs => if s.length ≤ x.length then x :: insertByLenDesc s xs else s :: x :: xs

/-- Python `sorted(xs, key=len, reverse=True)` (a stable sort). -/
def sortByLenDesc (l : List String) : List String :=
  l.foldl (fun acc s => insertByLenDesc s acc) []

/-- The closed model vocabulary (`model_prefixes` in `parse_filename`),
in source order. -/
def model_prefixes : List String :=
  ["DeepSeek-R1", "DeepSeek-V3", "Llama-3.3-70B-Instruct-Turbo",
   "QwQ-32B-Preview", "QwQ-32B", "claude-3-5-haiku", "claude-3-5-sonnet",
   "gpt-35-turbo", "gpt-4", "gpt-4o", "gpt-4o-mini", "o1-mini", "o3-mini"]

/-- The closed dataset vocabulary (`datasets` in `parse_filename`), in
source order. -/
def datasets : List String :=
  ["medqa", "medbullets", "mmlu", "pubmedqa", "medexqa", "medmcqa",
   "medxpertqa-r", "medxpertqa-u", "mmlu-pro"]

/-- The split vocabulary (`splits` in `parse_filename`), in source
order (already longest first). -/
def splits : List String := ["test_hard", "test"]

/-- Model stage of `parse_filename`: first prefix match over the
model vocabulary sorted longest-first; on success, the matched model
and the remainder after the prefix with leading dashes stripped. -/
def modelStage (fn : List Char) : Option (String × List Char) :=
  match (sortByLenDesc model_prefixes).find? (fun p => p.toList.isPrefixOf fn) with
  | some p => some (p, lstripDash (fn.drop p.toList.length))
  | none => none

/-- Dataset stage of `parse_filename`: first containment match over the
dataset vocabulary sorted longest-first; on success, the matched
dataset and the remainder with the first occurrence removed and dashes
stripped at both ends. -/
def datasetStage (remaining : List Char) : Option (String × List Char) :=
  match (sortByLenDesc datasets).find? (fun ds => isSubstr ds.toList remaining) with
  | some ds => some (ds, stripDash (removeFirst ds.toList remaining))
  | none => none

/-- Split stage of `parse_filename`: first containment match over
`["test_hard", "test"]`; on success, the matched split and the
remainder with the first occurrence removed and dashes stripped. -/
def splitStage (remaining : List Char) : Option (String × List Char) :=
  match splits.find? (fun s => isSubstr s.toList remaining) with
  | some s => some (s, stripDash (removeFirst s.toList remaining))
  | none => none

/-- `parse_filename` of `output/make_table.py`: strip `.json`, then run
the model, dataset and split stages in order; any stage failing yields
`(None, None, None, None)`; an empty final remainder defaults the
method to `zero_shot`. -/
def parse_filename (filename : String) :
    Option String × Option String × Option String × Option String :=
  let fn := stripJson filename.toList
  match modelStage fn with
  | none => (none, none, none, none)
  | some (model, r1) =>
    match datasetStage r1 with
    | none => (none, none, none, none)
    | some (dataset, r2) =>
      match splitStage r2 with
      | none => (none, none, none, none)
      | some (split, r3) =>
        (some model, some dataset, some split,
         some (if r3.isEmpty then "zero_shot" else String.mk r3))

/-- `parse_method` of `output/make_table.py`: fixed display-name lookup
with identity fallback. -/
def parse_method (method : String) : String :=
  if method = "zero_shot" then "Zero-shot"
  else if method = "cot_sc-5" then "CoT-SC"
  else if method = "aflow" then "AFlow"
  else if method = "mdagents" then "MDAgents"
  else if method = "few_shot" then "Few-shot"
  else if method = "medagents" then "MedAgents"
  else if method = "self_refine-3" then "Self-refine"
  else if method = "medprompt-3" then "MedPrompt"
  else if method = "multipersona-2" then "MultiPersona"
  else if method = "cot" then "CoT"
  else if method = "spo" then "SPO"
  else method

/-- The raw method tokens `parse_method` recognizes (its lookup keys),
in source order. -/
def methodTokens : List String :=
  ["zero_shot", "cot_sc-5", "aflow", "mdagents", "few_shot", "medagents",
   "self_refine-3", "medprompt-3", "multipersona-2", "cot", "spo"]

/-! ### Record Extractor (`output/utils.py`) -/

/-- Loop body accumulator of `deduplicate_data`: `seen` is the set of
`realidx` values already kept. -/
def deduplicateAux (seen : List ℕ) : List Record → List Record
  | [] => []
  | item :: rest =>
    if item.realidx ∈ seen then deduplicateAux seen rest
    else item :: deduplicateAux (item.realidx :: seen) rest

/-- `deduplicate_data` of `output/utils.py`. -/
def deduplicate_data (data : List Record) : List Record :=
  deduplicateAux [] data

/-- Modelled from the spec (§3, §4.3 of the design document): the
subsequence of the input consisting of the first record per distinct
`realidx` — each kept record removes its later duplicates.  Used as the
specification side of the deduplication claim. -/
def firstOccurrences : List Record → List Record
  | [] => []
  | x :: xs => x :: firstOccurrences (xs.filter fun y => y.realidx ≠ x.realidx)
  termination_by l => l.length
  decreasing_by
    simp only [List.length_cons]
    exact Nat.lt_succ_of_le (List.length_filter_le _ _)

/-- The per-model price table of `calculate_cost_from_token_usage`
(the `elif model == ...` chain): `(price_in, price_out)` per million
tokens, `none` for a model with no branch. -/
def priceTable (model : String) : Option (ℚ × ℚ) :=
  if model = "gpt-4o-mini" then some (0.15, 0.6)
  else if model = "gpt-4o" then some (2.5, 10)
  else if model = "o3-mini" ∨ model = "o1-mini" then some (1.1, 4.4)
  else if model = "claude-3-5-sonnet" then some (3.0, 15.0)
  else if model = "claude-3-5-haiku" then some (0.8, 4.0)
  else if model = "QwQ-32B-Preview" then some (1.2, 1.2)
  else if model = "DeepSeek-R1" then some (7, 7)
  else if model = "DeepSeek-V3" then some (1.25, 1.25)
  else if model = "Llama-3.3-70B-Instruct-Turbo" then some (0.88, 0.88)
  else none

/-- The cost one record contributes inside the loop of
`calculate_cost_from_token_usage`: an explicit `cost` key wins;
otherwise token-based pricing for a model in the table (`none` embeds
the KeyError when `token_usage` is missing); a model outside the table
contributes `0` (no `elif` branch matches). -/
def recordCost (model : String) (item : Record) : Option ℚ :=
  match item.cost with
  | some c => some c
  | none =>
    match priceTable model with
    | some p =>
      match item.token_usage with
      | some tu =>
        some ((tu.prompt_tokens : ℚ) * p.1 / 1000000 +
              (tu.completion_tokens : ℚ) * p.2 / 1000000)
      | none => none
    | none => some 0

/-- The per-record costs accumulated by the loop of
`calculate_cost_from_token_usage`; `none` embeds a KeyError raised at
some record. -/
def costList (model : String) : List Record → Option (List ℚ)
  | [] => some []
  | item :: rest =>
    match recordCost model item, costList model rest with
    | some c, some cs => some (c :: cs)
    | _, _ => none

/-- `calculate_cost_from_token_usage` of `output/utils.py`:
`total_cost / len(data) if len(data) > 0 else 0`. -/
def calculate_cost_from_token_usage (data : List Record) (model : String) : Option ℚ :=
  match costList model data with
  | some cs => some (if data.length > 0 then cs.sum / (data.length : ℚ) else 0)
  | none => none

/-- `calculate_time_from_data` of `output/utils.py`:
`total_time / len(data)`, with no guard — `none` embeds the
ZeroDivisionError on an empty list. -/
def calculate_time_from_data (data : List Record) : Option ℚ :=
  match data with
  | [] => none
  | _ =>
    some ((data.map Record.time_elapsed).sum / (data.length : ℚ))

/-- Python truthiness of `item.get(key)` for a string-valued optional
key: `None` and the empty string are falsy. -/
def pyTruthy : Option String → Bool
  | some s => s != ""
  | none => false

/-- Ground-truth selection of `get_score_from_file`:
`item.get('answer_idx') or item.get('answer')`. -/
def groundTruth (item : Record) : Option String :=
  if pyTruthy item.answer_idx then item.answer_idx else item.answer

/-- One entry of the `answers` list of `get_score_from_file`:
`gt == item['predicted_answer']` (Python `None == s` is `False`). -/
def correctRecord (item : Record) : Bool :=
  match groundTruth item with
  | some gt => gt == item.predicted_answer
  | none => false

/-- `get_score_from_file` of `output/utils.py`, applied to the decoded
record list of the file: deduplicate, then return
`(accuracy, count, avg_cost, avg_time)`; `none` embeds a crash in the
cost loop (KeyError) or the time average (ZeroDivisionError on an
empty deduplicated list). -/
def get_score_from_file (data : List Record) (model_name : String) :
    Option (ℚ × ℕ × ℚ × ℚ) :=
  let dedup := deduplicate_data data
  let acc : ℚ := ((dedup.countP correctRecord : ℚ) / (dedup.length : ℚ)) * 100
  match calculate_cost_from_token_usage dedup model_name,
        calculate_time_from_data dedup with
  | some avg_cost, some avg_time => some (acc, dedup.length, avg_cost, avg_time)
  | _, _ => none

/-! ### Theorems -/

theorem firstOccurrences_nil : firstOccurrences [] = [] := by
  simp [firstOccurrences]

theorem firstOccurrences_cons (x : Record) (xs : List Record) :
    firstOccurrences (x :: xs) =
      x :: firstOccurrences (xs.filter fun y => y.realidx ≠ x.realidx) := by
  simp [firstOccurrences]

theorem deduplicateAux_eq_firstOccurrences (l : List Record) : ∀ seen,
    deduplicateAux seen l =
      firstOccurrences (l.filter fun y => y.realidx ∉ seen) := by
  induction l with
  | nil => intro seen; simp [deduplicateAux, firstOccurrences_nil]
  | cons x xs ih =>
    intro seen
    by_cases hx : x.realidx ∈ seen
    · simp [deduplicateAux, hx, ih seen]
    · have hcons : (x :: xs).filter (fun y => decide (y.realidx ∉ seen)) =
          x :: xs.filter (fun y => decide (y.realidx ∉ seen)) := by
        simp [hx]
      rw [hcons, firstOccurrences_cons, List.filter_filter]
      simp only [deduplicateAux, if_neg hx, ih (x.realidx :: seen)]
      congr 2
      apply List.filter_congr
      intro a _
      simp [List.mem_cons, not_or, Bool.and_comm]

/-- C6: `deduplicate_data` keeps exactly the first record observed for
each distinct `realidx`, in original insertion order: it equals the
spec-side `firstOccurrences` (the subsequence of first occurrences, all
later records sharing a `realidx` discarded). -/
theorem c6_dedup_keeps_first_occurrences (data : List Record) :
    deduplicate_data data = firstOccurrences data := by
  have h := deduplicateAux_eq_firstOccurrences data []
  simpa [deduplicate_data, List.filter_true] using h

/-- C2: on the empty record list the time average of the Record
Extractor hits the division-by-zero branch (`none`), and hence
`get_score_from_file` on a file whose record list is empty returns no
value either, for every model name. -/
theorem c2_empty_list_division_by_zero :
    calculate_time_from_data [] = none ∧
      ∀ model_name, get_score_from_file [] model_name = none := by
  constructor
  · rfl
  · intro model_name
    rfl

/-- C3: ground-truth selection falls through on falsy values: whenever
`answer_idx` is absent or falsy (the empty string) the ground truth is
read from `answer` — in particular `answer_idx = ""`, `answer = "B"`,
`predicted_answer = "B"` counts as correct — and `answer_idx` is used
exactly when it is present and truthy. -/
theorem c3_ground_truth_falsy_fallback (item : Record) :
    (pyTruthy item.answer_idx = false → groundTruth item = item.answer) ∧
    (pyTruthy item.answer_idx = true → groundTruth item = item.answer_idx) ∧
    (item.answer_idx = some "" → item.answer = some "B" →
      item.predicted_answer = "B" → correctRecord item = true) := by
  refine ⟨?_, ?_, ?_⟩
  · intro h; simp [groundTruth, h]
  · intro h; simp [groundTruth, h]
  · intro h1 h2 h3
    simp [correctRecord, groundTruth, pyTruthy, h1, h2, h3]

theorem c3_witness :
    correctRecord ⟨0, some "", some "B", "B", 0, none, none⟩ = true :=
  (c3_ground_truth_falsy_fallback ⟨0, some "", some "B", "B", 0, none, none⟩).2.2
    rfl rfl rfl

/-- C4: a record with an explicit `cost` field contributes that value
verbatim, whatever `token_usage` holds (it is never read): the
contribution is unchanged under any replacement of `token_usage`. -/
theorem c4_explicit_cost_wins (model : String) (item : Record) (c : ℚ)
    (h : item.cost = some c) :
    recordCost model item = some c ∧
      ∀ tu, recordCost model { item with token_usage := tu } = some c := by
  constructor
  · simp [recordCost, h]
  · intro tu; simp [recordCost, h]

theorem c4_witness :
    recordCost "gpt-4o" ⟨0, none, none, "A", 0, some 5, some ⟨100, 50⟩⟩ = some 5 :=
  (c4_explicit_cost_wins "gpt-4o" ⟨0, none, none, "A", 0, some 5, some ⟨100, 50⟩⟩ 5 rfl).1

/-- C8: a record with no explicit `cost` field whose model is outside
the price table (`gpt-4` and `gpt-35-turbo` are) contributes exactly 0,
with no error (`some 0`, not `none`). -/
theorem c8_missing_price_silent_zero :
    priceTable "gpt-4" = none ∧ priceTable "gpt-35-turbo" = none ∧
      ∀ model item, priceTable model = none → item.cost = none →
        recordCost model item = some 0 := by
  refine ⟨by decide, by decide, ?_⟩
  intro model item h1 h2
  simp [recordCost, h1, h2]

theorem c8_witness :
    recordCost "gpt-4" ⟨0, none, none, "A", 0, none, none⟩ = some 0 :=
  c8_missing_price_silent_zero.2.2 "gpt-4" ⟨0, none, none, "A", 0, none, none⟩
    (by decide) rfl

/-- C9: `parse_method` is the identity on every token outside its fixed
lookup table. -/
theorem c9_parse_method_identity_fallback (m : String) (h : m ∉ methodTokens) :
    parse_method m = m := by
  simp only [methodTokens, List.mem_cons, List.not_mem_nil, or_false, not_or] at h
  obtain ⟨h1, h2, h3, h4, h5, h6, h7, h8, h9, h10, h11⟩ := h
  simp [parse_method, h1, h2, h3, h4, h5, h6, h7, h8, h9, h10, h11]

theorem c9_witness : parse_method "my_new_method" = "my_new_method" :=
  c9_parse_method_identity_fallback "my_new_method" (by decide)

theorem mem_of_mem_deduplicateAux {x : Record} :
    ∀ {l : List Record} {seen : List ℕ}, x ∈ deduplicateAux seen l → x ∈ l := by
  intro l
  induction l with
  | nil => intro seen h; simp [deduplicateAux] at h
  | cons y ys ih =>
    intro seen h
    by_cases hy : y.realidx ∈ seen
    · simp only [deduplicateAux, if_pos hy] at h
      exact List.mem_cons_of_mem _ (ih h)
    · simp only [deduplicateAux, if_neg hy, List.mem_cons] at h
      rcases h with h | h
      · exact h ▸ List.mem_cons_self _ _
      · exact List.mem_cons_of_mem _ (ih h)

theorem costList_model_irrelevant (l : List Record)
    (h : ∀ r ∈ l, r.cost.isSome) (m1 m2 : String) :
    costList m1 l = costList m2 l := by
  induction l with
  | nil => rfl
  | cons r rest ih =>
    obtain ⟨c, hc⟩ := Option.isSome_iff_exists.mp (h r (List.mem_cons_self _ _))
    have htail := ih fun r hr => h r (List.mem_cons_of_mem _ hr)
    simp [costList, recordCost, hc, htail]

/-- C10: when every record of a non-empty input list carries an
explicit `cost` field, the Record Extractor's output is independent of
the model identifier: `get_score_from_file` yields equal results for
any two model names. -/
theorem c10_model_independent_with_explicit_costs (data : List Record)
    (m1 m2 : String) (_hne : data ≠ [])
    (hcost : ∀ r ∈ data, r.cost.isSome) :
    get_score_from_file data m1 = get_score_from_file data m2 := by
  have hd : ∀ r ∈ deduplicate_data data, r.cost.isSome :=
    fun r hr => hcost r (mem_of_mem_deduplicateAux hr)
  have hc : calculate_cost_from_token_usage (deduplicate_data data) m1 =
      calculate_cost_from_token_usage (deduplicate_data data) m2 := by
    unfold calculate_cost_from_token_usage
    rw [costList_model_irrelevant (deduplicate_data data) hd m1 m2]
  simp only [get_score_from_file, hc]

theorem c10_witness :
    get_score_from_file
        [⟨0, some "A", none, "A", 1, some 2, none⟩,
         ⟨1, some "B", none, "C", 3, some 4, none⟩] "gpt-4o" =
      get_score_from_file
        [⟨0, some "A", none, "A", 1, some 2, none⟩,
         ⟨1, some "B", none, "C", 3, some 4, none⟩] "gpt-4" :=
  c10_model_independent_with_explicit_costs
    [⟨0, some "A", none, "A", 1, some 2, none⟩,
     ⟨1, some "B", none, "C", 3, some 4, none⟩] "gpt-4o" "gpt-4"
    (by decide) (by decide)

/-- C7: whenever one of the three decoding stages finds no match on its
input, `parse_filename` returns with all four fields absent (and, being
a total function, does not raise). -/
theorem c7_stage_failure_all_none (filename : String) :
    (modelStage (stripJson filename.toList) = none →
      parse_filename filename = (none, none, none, none)) ∧
    (∀ model r1, modelStage (stripJson filename.toList) = some (model, r1) →
      datasetStage r1 = none →
      parse_filename filename = (none, none, none, none)) ∧
    (∀ model r1 dataset r2,
      modelStage (stripJson filename.toList) = some (model, r1) →
      datasetStage r1 = some (dataset, r2) → splitStage r2 = none →
      parse_filename filename = (none, none, none, none)) := by
  refine ⟨?_, ?_, ?_⟩
  · intro h
    simp only [String.toList] at h
    simp [parse_filename, h]
  · intro model r1 h1 h2
    simp only [String.toList] at h1
    simp [parse_filename, h1, h2]
  · intro model r1 dataset r2 h1 h2 h3
    simp only [String.toList] at h1
    simp [parse_filename, h1, h2, h3]

theorem c7_witness :
    parse_filename "gpt-4o-foo.json" = (none, none, none, none) :=
  (c7_stage_failure_all_none "gpt-4o-foo.json").2.1 "gpt-4o" "foo".toList
    (by decide) (by decide)

theorem sortedDatasets_eq : sortByLenDesc datasets =
    ["medxpertqa-r", "medxpertqa-u", "medbullets", "pubmedqa", "mmlu-pro",
     "medexqa", "medmcqa", "medqa", "mmlu"] := by decide

/-- C5 (amended): a post-model remainder containing `mmlu-pro` never
resolves to `mmlu` in the dataset stage; it resolves to `mmlu-pro`
provided none of the datasets checked before it in the
length-descending order (`medxpertqa-r`, `medxpertqa-u`, `medbullets`,
`pubmedqa`) also occurs in the remainder. -/
theorem c5_mmlupro_longest_match (remaining : List Char)
    (h : isSubstr "mmlu-pro".toList remaining = true) :
    (∀ d r2, datasetStage remaining = some (d, r2) → d ≠ "mmlu") ∧
    (isSubstr "medxpertqa-r".toList remaining = false →
     isSubstr "medxpertqa-u".toList remaining = false →
     isSubstr "medbullets".toList remaining = false →
     isSubstr "pubmedqa".toList remaining = false →
     ∀ d r2, datasetStage remaining = some (d, r2) → d = "mmlu-pro") := by
  unfold datasetStage
  rw [sortedDatasets_eq]
  simp only [String.toList] at h
  cases h1 : isSubstr "medxpertqa-r".data remaining <;>
  cases h2 : isSubstr "medxpertqa-u".data remaining <;>
  cases h3 : isSubstr "medbullets".data remaining <;>
  cases h4 : isSubstr "pubmedqa".data remaining <;>
    simp [List.find?, h1, h2, h3, h4, h]

/-- C5 counterexample to the claim as stated: the post-model remainder
of `gpt-4o-pubmedqa-mmlu-pro-test.json` contains `mmlu-pro`, yet the
dataset stage resolves it to `pubmedqa` (checked earlier in the
length-descending order), not to `mmlu-pro`. -/
theorem c5_counterexample :
    modelStage (stripJson "gpt-4o-pubmedqa-mmlu-pro-test.json".toList) =
        some ("gpt-4o", "pubmedqa-mmlu-pro-test".toList) ∧
    isSubstr "mmlu-pro".toList "pubmedqa-mmlu-pro-test".toList = true ∧
    datasetStage "pubmedqa-mmlu-pro-test".toList =
        some ("pubmedqa", "mmlu-pro-test".toList) ∧
    ("pubmedqa" : String) ≠ "mmlu-pro" ∧
    parse_filename "gpt-4o-pubmedqa-mmlu-pro-test.json" =
        (some "gpt-4o", some "pubmedqa", some "test", some "mmlu-pro") := by
  decide

theorem c5_witness : ("mmlu-pro" : String) ≠ "mmlu" :=
  (c5_mmlupro_longest_match "mmlu-pro-test".toList (by decide)).1
    "mmlu-pro" "test".toList (by decide)


theorem stripJson_cons_ne_dot (c : Char) (t : List Char) (h : c ≠ '.') :
    stripJson (c :: t) = c :: stripJson t := by
  rw [stripJson.eq_def]
  split
  · rename_i heq
    injection heq with h1 _
    exact absurd h1 h
  · rename_i c' t' heq
    injection heq with h1 h2
    subst h1 h2
    rfl
  · rename_i heq
    exact List.noConfusion heq

theorem stripJson_dot_ne_j (c2 : Char) (t : List Char) (h : c2 ≠ 'j') :
    stripJson ('.' :: c2 :: t) = '.' :: stripJson (c2 :: t) := by
  rw [stripJson.eq_def]
  split
  · rename_i heq
    injection heq with _ h2
    injection h2 with h2a _
    exact absurd h2a h
  · rename_i c' t' heq
    injection heq with h1 h2
    subst h1 h2
    rfl
  · rename_i heq
    exact List.noConfusion heq

theorem dotSafe_cons (c : Char) (rest : List Char) :
    dotSafe (c :: rest) =
      ((!(c == '.') || (match rest with
        | [] => false
        | c2 :: _ => !(c2 == 'j'))) && dotSafe rest) := by
  rfl

theorem stripJson_append_of_dotSafe (X Y : List Char) (h : dotSafe X = true) :
    stripJson (X ++ Y) = X ++ stripJson Y := by
  induction X with
  | nil => rfl
  | cons c X' ih =>
    rw [dotSafe_cons, Bool.and_eq_true] at h
    obtain ⟨hguard, hrest⟩ := h
    by_cases hc : c = '.'
    · subst hc
      simp only [beq_self_eq_true, Bool.not_true, Bool.false_or] at hguard
      cases X' with
      | nil => simp at hguard
      | cons c2 rest' =>
        simp only [] at hguard
        have hc2 : c2 ≠ 'j' := by
          intro hh
          subst hh
          simp at hguard
        rw [List.cons_append, List.cons_append, stripJson_dot_ne_j c2 (rest' ++ Y) hc2]
        rw [← List.cons_append, ih hrest]
        simp
    · rw [List.cons_append, stripJson_cons_ne_dot c (X' ++ Y) hc, ih hrest]
      simp

theorem dotSafe_append_dash (A B : List Char) :
    dotSafe (A ++ '-' :: B) = (dotSafe (A ++ ['-']) && dotSafe B) := by
  induction A with
  | nil => simp [dotSafe]
  | cons c A' ih =>
    rw [List.cons_append, dotSafe_cons, ih, List.cons_append, dotSafe_cons]
    cases A' with
    | nil => simp [Bool.and_assoc]
    | cons a A'' => simp [Bool.and_assoc]

theorem toList_decomp (m d s me : String) :
    String.toList (m ++ "-" ++ d ++ "-" ++ s ++ "-" ++ me ++ ".json") =
      m.toList ++ '-' :: (d.toList ++ '-' :: (s.toList ++ '-' ::
        (me.toList ++ ['.', 'j', 's', 'o', 'n']))) := by
  simp [String.toList, String.data_append, List.append_assoc]

theorem isPrefixOf_append_eq (p a t : List Char) (h : a.isPrefixOf p = false) :
    p.isPrefixOf (a ++ t) = p.isPrefixOf a := by
  induction p generalizing a with
  | nil =>
    cases a with
    | nil => simp [List.isPrefixOf] at h
    | cons y a' => simp [List.isPrefixOf]
  | cons x p' ih =>
    cases a with
    | nil => simp [List.isPrefixOf] at h
    | cons y a' =>
      simp only [List.cons_append, List.isPrefixOf]
      cases hxy : (x == y) with
      | false => simp [hxy]
      | true =>
        have hx : x = y := by
          have := beq_iff_eq.mp hxy
          exact this
        subst hx
        simp only [beq_self_eq_true, Bool.true_and]
        have h' : a'.isPrefixOf p' = false := by
          simp only [List.isPrefixOf, beq_self_eq_true, Bool.true_and] at h
          exact h
        exact ih a' h'

theorem findCongr {α : Type} (L : List α) (f g : α → Bool)
    (h : ∀ x ∈ L, f x = g x) : L.find? f = L.find? g := by
  induction L with
  | nil => rfl
  | cons a L' ih =>
    have ha := h a (List.mem_cons_self _ _)
    cases hga : g a with
    | true => simp [List.find?, ha, hga]
    | false =>
      simp only [List.find?, ha, hga]
      exact ih fun x hx => h x (List.mem_cons_of_mem _ hx)

theorem lstripDash_dash_cons (l t : List Char)
    (hl : startsNonDash l = true) :
    lstripDash ('-' :: (l ++ t)) = l ++ t := by
  cases l with
  | nil => simp [startsNonDash] at hl
  | cons c l' =>
    have hc : (c == '-') = false := by
      simp [startsNonDash] at hl
      simp [hl]
    simp [lstripDash, List.dropWhile_cons, hc]

theorem modelStage_vocab :
    ∀ m ∈ model_prefixes, ∀ d ∈ datasets, ∀ t : List Char,
      modelStage (String.toList (m ++ "-" ++ d) ++ t) =
        some (m, String.toList d ++ t) := by
  have H1 : ∀ m ∈ model_prefixes, ∀ d ∈ datasets,
      ∀ p ∈ sortByLenDesc model_prefixes,
        (String.toList (m ++ "-" ++ d)).isPrefixOf p.toList = false := by decide
  have H2 : ∀ m ∈ model_prefixes, ∀ d ∈ datasets,
      (sortByLenDesc model_prefixes).find?
          (fun p => p.toList.isPrefixOf (String.toList (m ++ "-" ++ d))) =
        some m := by decide
  have H3 : ∀ d ∈ datasets, startsNonDash (String.toList d) = true := by decide
  intro m hm d hd t
  unfold modelStage
  rw [findCongr _ _ _ (fun p hp =>
    isPrefixOf_append_eq p.toList (String.toList (m ++ "-" ++ d)) t (H1 m hm d hd p hp))]
  rw [H2 m hm d hd]
  have hsplit : String.toList (m ++ "-" ++ d) =
      String.toList m ++ '-' :: String.toList d := by
    simp [String.toList, String.data_append]
  rw [hsplit, List.append_assoc, List.cons_append]
  show some (m, lstripDash (List.drop m.toList.length
      (m.toList ++ '-' :: (d.toList ++ t)))) = some (m, d.toList ++ t)
  rw [List.drop_left, lstripDash_dash_cons _ _ (H3 d hd)]

set_option maxHeartbeats 4000000 in
theorem restStages_vocab :
    ∀ d ∈ datasets, ∀ s ∈ splits, ∀ me ∈ methodTokens,
      datasetStage (String.toList d ++ '-' :: (String.toList s ++ '-' :: String.toList me)) =
          some (d, String.toList s ++ '-' :: String.toList me) ∧
        splitStage (String.toList s ++ '-' :: String.toList me) =
          some (s, String.toList me) := by
  decide

/-- C1: for every filename `<model>-<dataset>-<split>-<method>.json`
built from the fixed model, dataset and split vocabularies with a
method token known to the normalizer, `parse_filename` returns exactly
the four original components. -/
theorem c1_decoder_roundtrip :
    ∀ m ∈ model_prefixes, ∀ d ∈ datasets, ∀ s ∈ splits, ∀ me ∈ methodTokens,
      parse_filename (m ++ "-" ++ d ++ "-" ++ s ++ "-" ++ me ++ ".json") =
        (some m, some d, some s, some me) := by
  have Hdm : ∀ m ∈ model_prefixes, dotSafe (String.toList m ++ ['-']) = true := by decide
  have Hdd : ∀ d ∈ datasets, dotSafe (String.toList d ++ ['-']) = true := by decide
  have Hds : ∀ s ∈ splits, dotSafe (String.toList s ++ ['-']) = true := by decide
  have Hdme : ∀ me ∈ methodTokens, dotSafe (String.toList me) = true := by decide
  have Hne : ∀ me ∈ methodTokens, (String.toList me).isEmpty = false := by decide
  intro m hm d hd s hs me hme
  have g3 : dotSafe (String.toList s ++ '-' :: String.toList me) = true := by
    rw [dotSafe_append_dash, Hds s hs, Hdme me hme]
    rfl
  have g2 : dotSafe (String.toList d ++ '-' ::
      (String.toList s ++ '-' :: String.toList me)) = true := by
    rw [dotSafe_append_dash, Hdd d hd, g3]
    rfl
  have hX : dotSafe (String.toList m ++ '-' :: (String.toList d ++ '-' ::
      (String.toList s ++ '-' :: String.toList me))) = true := by
    rw [dotSafe_append_dash, Hdm m hm, g2]
    rfl
  have hsplit : String.toList (m ++ "-" ++ d) =
      String.toList m ++ '-' :: String.toList d := by
    simp [String.toList, String.data_append]
  have hstrip : stripJson (String.toList (m ++ "-" ++ d ++ "-" ++ s ++ "-" ++ me ++ ".json")) =
      String.toList (m ++ "-" ++ d) ++ '-' :: (String.toList s ++ '-' :: String.toList me) := by
    rw [toList_decomp]
    have e1 : String.toList m ++ '-' :: (String.toList d ++ '-' :: (String.toList s ++ '-' ::
        (String.toList me ++ ['.', 'j', 's', 'o', 'n']))) =
        (String.toList m ++ '-' :: (String.toList d ++ '-' :: (String.toList s ++ '-' ::
          String.toList me))) ++ ['.', 'j', 's', 'o', 'n'] := by
      simp [List.append_assoc]
    rw [e1, stripJson_append_of_dotSafe _ _ hX]
    have e2 : stripJson ['.', 'j', 's', 'o', 'n'] = [] := rfl
    rw [e2, List.append_nil, hsplit, List.append_assoc, List.cons_append]
  have hmk : String.mk (String.toList me) = me := rfl
  simp only [parse_filename, hstrip,
    modelStage_vocab m hm d hd ('-' :: (String.toList s ++ '-' :: String.toList me)),
    (restStages_vocab d hd s hs me hme).1,
    (restStages_vocab d hd s hs me hme).2,
    Hne me hme, hmk]
  simp

theorem c1_witness :
    parse_filename ("gpt-4o" ++ "-" ++ "medqa" ++ "-" ++ "test_hard" ++ "-" ++
        "cot" ++ ".json") =
      (some "gpt-4o", some "medqa", some "test_hard", some "cot") :=
  c1_decoder_roundtrip "gpt-4o" (by decide) "medqa" (by decide)
    "test_hard" (by decide) "cot" (by decide)
